import Mathlib

/-!
Verification of the agents-sdk orchestration core against its code.

The development embeds the C++ sources shallowly:
* `std::map<std::string, V>` members are embedded as association lists whose
  keys are kept strictly increasing under a lexicographic code-point
  comparator (the order `std::map<std::string, _>` maintains);
* in-place mutation is embedded as explicit state passing, and functions
  that can throw return an error component alongside the state;
* `double` scores are embedded as rationals;
* `std::string` index arithmetic (in the URL helpers) is embedded over
  `List Char`.
Operations whose bodies are only declared in the headers (the Context
control loop, the tool registry mutators, the evaluator workflow, the
media normalizer) are modelled from the specification, as marked on each
definition.
-/

namespace agents

/-- Lexicographic comparison of two character lists, the semantics of
`operator<` on `std::string`. -/
def charsLtB : List Char → List Char → Bool
  | [], [] => false
  | [], _ :: _ => true
  | _ :: _, [] => false
  | a :: as, b :: bs =>
    if a.toNat < b.toNat then true
    else if b.toNat < a.toNat then false
    else charsLtB as bs

/-- Strict lexicographic order on strings, the key order of
`std::map<std::string, V>`. -/
def strLtB (a b : String) : Bool := charsLtB a.data b.data

/-! Association lists standing for `std::map<std::string, V>`: lookup,
sorted insert and erase, plus the invariant that keys are strictly
increasing (which `std::map` maintains). -/

/-- Lookup in an association list, the model of `map::find`. -/
def lookupA {α : Type} : List (String × α) → String → Option α
  | [], _ => none
  | (k, v) :: tl, key => if k = key then some v else lookupA tl key

/-- Ordered insert replacing an existing binding, the model of writing
through `map::operator[]` on a sorted map. -/
def insertA {α : Type} : List (String × α) → String → α → List (String × α)
  | [], key, v => [(key, v)]
  | (k, w) :: tl, key, v =>
    if strLtB key k then (key, v) :: (k, w) :: tl
    else if key = k then (key, v) :: tl
    else (k, w) :: insertA tl key v

/-- Erase the binding of a key, the model of `map::erase`. -/
def eraseA {α : Type} : List (String × α) → String → List (String × α)
  | [], _ => []
  | (k, w) :: tl, key => if k = key then tl else (k, w) :: eraseA tl key

/-- Invariant of `std::map`: keys strictly increase along the list. -/
abbrev KeysSorted {α : Type} (l : List (String × α)) : Prop :=
  List.Pairwise (fun p q => strLtB p.1 q.1 = true) l

/-! JSON values and objects. `nlohmann::json` objects are key-sorted maps
from strings to values; only the object layer matters to the claims, so
values are a small inductive. -/

/-- Model of a JSON value stored in a `JsonObject`. -/
inductive JsonValue where
  | null
  | bool (b : Bool)
  | num (n : Int)
  | str (s : String)
deriving DecidableEq

/-- Model of `JsonObject` (`nlohmann::json` object): a key-sorted map. -/
abbrev JsonObject : Type := List (String × JsonValue)

namespace Utils

/-- Embedding of `Utils::changeKey` (utils.h): find `old_key`; if absent
throw `std::runtime_error("Key not found: " + old_key)` leaving the object
as it was; otherwise swap the value into `object[new_key]` and erase the
`old_key` entry. The thrown message is returned in the first component and
the final object state in the second. -/
def changeKey (object : JsonObject) (old_key new_key : String) :
    Option String × JsonObject :=
  match lookupA object old_key with
  | none => (some ("Key not found: " ++ old_key), object)
  | some v => (none, eraseA (insertA object new_key v) old_key)

end Utils

namespace HTTPClient

/-- The separator `"://"` searched for by `getBaseUrl` and `getPath`. -/
def protoSep : List Char := [':', '/', '/']

/-- Model of `std::string::find(pat)`: index of the first occurrence of
`pat` as a contiguous substring, if any. -/
def findSub : List Char → List Char → Option Nat
  | [], pat => if pat.isPrefixOf ([] : List Char) then some 0 else none
  | c :: tl, pat =>
    if pat.isPrefixOf (c :: tl) then some 0
    else (findSub tl pat).map (· + 1)

/-- Model of `std::string::find(ch, start)`: index of the first occurrence
of `ch` at position `start` or later, if any. -/
def findCharFrom (l : List Char) (ch : Char) (start : Nat) : Option Nat :=
  match List.findIdx? (fun c => c == ch) (l.drop start) with
  | none => none
  | some i => some (start + i)

/-- Embedding of `HTTPClient::getBaseUrl` (http_client.h): find `"://"`;
if absent return the url; find `'/'` from three past the separator; if
absent return the url; else the prefix before that slash. -/
def getBaseUrl (url : List Char) : List Char :=
  match findSub url protoSep with
  | none => url
  | some proto_end =>
    match findCharFrom url '/' (proto_end + 3) with
    | none => url
    | some path_start => url.take path_start

/-- Embedding of `HTTPClient::getPath` (http_client.h): find `"://"`; if
absent return `"/"`; find `'/'` from three past the separator; if absent
return `"/"`; else the suffix from that slash. -/
def getPath (url : List Char) : List Char :=
  match findSub url protoSep with
  | none => ['/']
  | some proto_end =>
    match findCharFrom url '/' (proto_end + 3) with
    | none => ['/']
    | some path_start => url.drop path_start

/-- A response delivered by the transport (`httplib`): the parsed HTTP
status, body, reason phrase, `Location` header value and header list. -/
structure ServerResp where
  status : Nat
  body : String
  reason : String
  location : String
  headers : List (String × String)

/-- Embedding of `HTTPClient::Response` (http_client.h). -/
structure Response where
  status_code : Int
  text : String
  error : Bool
  error_message : String
  headers : List (String × String)

/-- Redirect statuses handled by `HTTPClient::post`. -/
def isRedirectStatus (s : Nat) : Bool :=
  s == 301 || s == 302 || s == 303 || s == 307 || s == 308

/-- Outcome of the try block of `post`: either a `std::exception` was
thrown, or the send completed with an optional response (`res` null on a
connect failure) and, for the redirected `Get`, a second optional
response consulted only when a redirect fires. -/
inductive TryOutcome where
  | thrown (msg : String)
  | sent (res : Option ServerResp) (redirectRes : Option ServerResp)

/-- Redirect step of `post`: when the first response carries a redirect
status, redirects are followed (the `Session` constructor always sets
`follow_redirects`) and the `Location` value is non-empty, the result of
the follow-up `Get` replaces the response. -/
def postResolve (follow_redirects : Bool) :
    Option ServerResp → Option ServerResp → Option ServerResp
  | some r, redirectRes =>
    if follow_redirects = true ∧ isRedirectStatus r.status = true ∧
        r.location ≠ "" then redirectRes
    else some r
  | none, _ => none

/-- Embedding of `HTTPClient::post` (http_client.h): on an exception or a
null result the response carries `error = true` and `status_code = -1`;
on a completed exchange it carries the server status, the body (empty
when a streaming write callback was supplied) and `error = false`. -/
def post (has_write_cb follow_redirects : Bool) (o : TryOutcome) : Response :=
  match o with
  | .thrown msg =>
    { status_code := -1, text := "", error := true, error_message := msg,
      headers := [] }
  | .sent res redirectRes =>
    match postResolve follow_redirects res redirectRes with
    | some r =>
      { status_code := (r.status : Int),
        text := if has_write_cb then "" else r.body, error := false,
        error_message := r.reason, headers := r.headers }
    | none =>
      { status_code := -1, text := "", error := true,
        error_message := "Failed to connect", headers := [] }

/-- Outcome of the try block of either `get` overload. -/
inductive GetOutcome where
  | thrown (msg : String)
  | sent (res : Option ServerResp)

/-- Embedding of the headers-only `HTTPClient::get` overload
(http_client.h). -/
def get (o : GetOutcome) : Response :=
  match o with
  | .thrown msg =>
    { status_code := -1, text := "", error := true, error_message := msg,
      headers := [] }
  | .sent none =>
    { status_code := -1, text := "", error := true,
      error_message := "Request failed", headers := [] }
  | .sent (some r) =>
    { status_code := (r.status : Int), text := r.body, error := false,
      error_message := "", headers := r.headers }

/-- Embedding of the `HTTPClient::get` overload taking query params
(http_client.h); the params shape only the request line, not the
normalization of the result. -/
def getWithParams (params : List (String × String)) (o : GetOutcome) :
    Response :=
  match o with
  | .thrown msg =>
    { status_code := -1, text := "", error := true, error_message := msg,
      headers := [] }
  | .sent none =>
    { status_code := -1, text := "", error := true,
      error_message := "Request failed", headers := [] }
  | .sent (some r) =>
    { status_code := (r.status : Int), text := r.body, error := false,
      error_message := "", headers := r.headers }

end HTTPClient

/-! Error kinds of the orchestration core (spec section 7). -/

/-- Error kinds surfaced by the core: duplicate registration, the
tool-calling loop cap, transport and provider failures, unknown tool
names, and media input rejection. -/
inductive AgentError where
  | duplicateTool
  | loopExceeded
  | transportError
  | providerError
  | toolNotFound
  | invalidMediaInput
deriving DecidableEq

/-! Tool registry. `Context` stores tools in the member
`std::map<std::string, std::shared_ptr<Tool>> tools_` (context.h). -/

/-- A tool capability as the registry holds it: its descriptor name and
description. -/
structure Tool where
  name : String
  description : String
deriving DecidableEq

/-- The type of the `Context::tools_` member: a name-keyed sorted map. -/
abbrev ToolMap : Type := List (String × Tool)

/-- Modelled from the spec: the body of `Context::registerTool` is not in
the headers. Per the spec registration fails with `DuplicateToolError`
when the name already exists, preserving the name-uniqueness invariant
and leaving the registry as it was; otherwise the tool is stored in
`tools_` keyed by its name. The first component is the outcome, the
second the registry afterwards. -/
def registerTool (tools_ : ToolMap) (tool : Tool) :
    Except AgentError Unit × ToolMap :=
  match lookupA tools_ tool.name with
  | some _ => (.error .duplicateTool, tools_)
  | none => (.ok (), insertA tools_ tool.name tool)

/-- Modelled from the spec: the body of `Context::getTool` is not in the
headers; per the spec `get(name)` returns the optional capability,
realized as lookup in the `tools_` map. -/
def getTool (tools_ : ToolMap) (name : String) : Option Tool :=
  lookupA tools_ name

/-- Modelled from the spec: the body of `Context::getTools` is not in the
headers. The declared member type constrains any body to be a function of
the map contents, which hold no registration-order information; this
embedding returns the `std::map` iteration order, ascending key order. -/
def getTools (tools_ : ToolMap) : List Tool :=
  tools_.map Prod.snd

/-- Invariant of the `tools_` member: keys sorted (the `std::map`
invariant) and every tool keyed by its own name (what `registerTool`
stores). -/
def RegWF (tools_ : ToolMap) : Prop :=
  KeysSorted tools_ ∧ ∀ p ∈ tools_, p.1 = p.2.name

instance (tools_ : ToolMap) : Decidable (RegWF tools_) := by
  unfold RegWF
  exact instDecidableAnd

/-! Conversation messages (spec section 3 data model). -/

/-- Message roles. -/
inductive Role where
  | system
  | user
  | assistant
  | tool
deriving DecidableEq

/-- A tool invocation requested by the model: tool name, call id and the
parameter payload. -/
structure ToolCall where
  name : String
  id : String
  params : String
deriving DecidableEq

/-- A media reference carried by a message part: either a URI reference or
inline base64 data (the envelope tagged union, media_envelope.h). -/
inductive MediaPart where
  | uriRef (uri : String)
  | inlineData (base64 : String)
deriving DecidableEq

/-- One content part of a message: text or a media reference. -/
inductive ContentPart where
  | text (s : String)
  | media (m : MediaPart)
deriving DecidableEq

/-- A conversation message: role, ordered content parts, the tool calls
an assistant message requests, and the call id a tool-result message
answers. -/
structure Message where
  role : Role
  parts : List ContentPart
  toolCalls : List ToolCall
  toolCallId : Option String
deriving DecidableEq

/-- The assistant message appended for a final model answer. -/
def assistantText (s : String) : Message :=
  { role := .assistant, parts := [.text s], toolCalls := [], toolCallId := none }

namespace media

/-- Modelled from the spec: the body of `media::normalizeMediaPart` is not
in the headers. Per the envelope documentation (media_envelope.h) a URI
reference is an `http://`, `https://`, `file://` or `data:` string. -/
def isValidUri (s : String) : Bool :=
  "http://".data.isPrefixOf s.data || "https://".data.isPrefixOf s.data ||
    "file://".data.isPrefixOf s.data || "data:".data.isPrefixOf s.data

/-- Modelled from the spec: inline content must be decodable base64
bytes: non-empty, drawn from the base64 alphabet and padded to a length
divisible by four. -/
def isDecodableInlineData (s : String) : Bool :=
  !s.data.isEmpty &&
    s.data.all (fun c => c.isAlphanum || c = '+' || c = '/' || c = '=') &&
    s.data.length % 4 == 0

/-- Modelled from the spec: classify one entry of `uris_or_data`; a string
that is neither a valid URI nor decodable inline data has no
classification and is rejected. -/
def classifyMediaInput (s : String) : Option MediaPart :=
  if isValidUri s then some (.uriRef s)
  else if isDecodableInlineData s then some (.inlineData s)
  else none

/-- Modelled from the spec: classify every entry, failing on the first
rejection (the `std::invalid_argument` the normalizer documents). -/
def classifyAll : List String → Except AgentError (List MediaPart)
  | [] => .ok []
  | s :: rest =>
    match classifyMediaInput s with
    | none => .error .invalidMediaInput
    | some p =>
      match classifyAll rest with
      | .error e => .error e
      | .ok ps => .ok (p :: ps)

/-- Modelled from the spec: `Context::buildMultimodalParts` builds the
multi-part user message from the prompt plus the URI or inline data
strings, failing when any entry is neither a valid URI nor decodable
inline data. -/
def buildMultimodalParts (prompt : String) (uris_or_data : List String) :
    Except AgentError Message :=
  match classifyAll uris_or_data with
  | .error e => .error e
  | .ok ps =>
    .ok { role := .user, parts := .text prompt :: ps.map ContentPart.media,
          toolCalls := [], toolCallId := none }

end media

/-- Modelled from the spec: the body of `Context::chat` is not in the
headers. Per the spec it builds the multimodal user message, appends it,
performs exactly one round trip to the model client with no tools
offered, appends the assistant message and returns the response;
transport and provider failures of the round trip propagate without
retry, leaving the appended user message in history. The round trip is
abstracted as a function from the conversation so far to the outcome of
the exchange. -/
def chat (roundTrip : List Message → Except AgentError String)
    (history : List Message) (user_message : String)
    (uris_or_data : List String) :
    Except AgentError String × List Message :=
  match media.buildMultimodalParts user_message uris_or_data with
  | .error e => (.error e, history)
  | .ok m =>
    match roundTrip (history ++ [m]) with
    | .error e => (.error e, history ++ [m])
    | .ok t => (.ok t, history ++ [m, assistantText t])

/-! The tool-calling loop of `Context::chatWithTools` (spec sections 4.1
and 4.6). -/

/-- The result of one tool execution (spec Tool Capability interface). -/
structure ToolResult where
  success : Bool
  content : String
deriving DecidableEq

/-- A model client response for one round: a final answer or an ordered
list of requested tool invocations (spec section 6). -/
inductive LLMResp where
  | final (text : String)
  | toolCalls (calls : List ToolCall)

/-- Modelled from the spec: one round with tool requests appends the
assistant message carrying the calls, then one tool-result message per
call in the order the model listed them, each carrying its call id. -/
def toolRoundMessages (exec : String → String → ToolResult)
    (calls : List ToolCall) : List Message :=
  { role := .assistant, parts := [], toolCalls := calls, toolCallId := none } ::
    calls.map (fun c =>
      { role := .tool, parts := [.text (exec c.name c.params).content],
        toolCalls := [], toolCallId := some c.id })

/-- Modelled from the spec: the loop of `Context::chatWithTools` is not in
the headers. Each round sends the conversation to the model client; a
final answer is appended and returned; tool requests are executed in
order and the loop repeats. The fuel counts the rounds still allowed by
the internal turn cap; exhausting it fails with `LoopExceededError`
rather than silently truncating. The client takes the round index so
stateful stubs can be expressed. -/
def chatToolsGo (client : Nat → List Message → LLMResp)
    (exec : String → String → ToolResult) :
    Nat → Nat → List Message → Except AgentError (String × List Message)
  | 0, _, _ => .error .loopExceeded
  | fuel + 1, round, msgs =>
    match client round msgs with
    | .final t => .ok (t, msgs ++ [assistantText t])
    | .toolCalls calls =>
      chatToolsGo client exec fuel (round + 1)
        (msgs ++ toolRoundMessages exec calls)

/-- Modelled from the spec: `Context::chatWithTools` builds and appends
the multimodal user message, then runs the tool-calling loop under the
configured turn cap. -/
def chatWithTools (client : Nat → List Message → LLMResp)
    (exec : String → String → ToolResult) (turn_cap : Nat)
    (history : List Message) (user_message : String)
    (uris_or_data : List String) :
    Except AgentError (String × List Message) :=
  match media.buildMultimodalParts user_message uris_or_data with
  | .error e => .error e
  | .ok m => chatToolsGo client exec turn_cap 0 (history ++ [m])

namespace workflows

/-! The evaluator-optimizer refinement loop of `EvaluatorWorkflow`
(evaluator_workflow.h declares it with defaults `max_iterations_ = 3` and
`improvement_threshold_ = 0.8`; the loop body is modelled from spec
section 4.3). -/

/-- Evaluation feedback (spec section 3): a score, an accept decision and
free-form feedback text. -/
structure Feedback where
  score : ℚ
  accept : Bool
  feedback : String
deriving DecidableEq

/-- The raw output of the evaluator role for one iteration: feedback that
parsed, or output that cannot be parsed as a score. -/
inductive EvalOutput where
  | parsed (f : Feedback)
  | malformed
deriving DecidableEq

/-- Modelled from the spec: malformed evaluator output is recovered as
score `0`, accept `false` instead of failing the run (spec sections 4.3
and 7). -/
def parseFeedback : EvalOutput → Feedback
  | .parsed f => f
  | .malformed => { score := 0, accept := false, feedback := "" }

/-- The result of `EvaluatorWorkflow::run` (spec: finalOutput,
iterations, accepted, history). -/
structure RunResult where
  finalOutput : String
  iterations : Nat
  accepted : Bool
  history : List (String × Feedback)
deriving DecidableEq

/-- Modelled from the spec: the body of `EvaluatorWorkflow::run` is not
in the headers. Iteration body (spec section 4.3): the optimizer produces
a candidate from the input and the most recent feedback (none on
iteration one); the evaluator scores it; if accept holds or the score
meets the threshold the loop terminates accepted; else if the iteration
counter has reached the configured max it terminates exhausted; otherwise
the candidate and feedback join the history and the loop repeats. The
fuel argument counts the iterations still allowed after the current one
plus one; the optimizer and evaluator take the iteration index so
call-counting stubs can be expressed. -/
def evGo (optimizer : Nat → String → Option Feedback → String)
    (evaluator : Nat → String → String → EvalOutput) (input : String)
    (threshold : ℚ) :
    Nat → Nat → Option Feedback → List (String × Feedback) → RunResult
  | 0, iteration, _, history =>
    { finalOutput := "", iterations := iteration, accepted := false,
      history := history }
  | fuel + 1, iteration, lastFeedback, history =>
    let candidate := optimizer iteration input lastFeedback
    let fb := parseFeedback (evaluator iteration input candidate)
    if fb.accept = true ∨ threshold ≤ fb.score then
      { finalOutput := candidate, iterations := iteration, accepted := true,
        history := history ++ [(candidate, fb)] }
    else if fuel = 0 then
      { finalOutput := candidate, iterations := iteration, accepted := false,
        history := history ++ [(candidate, fb)] }
    else
      evGo optimizer evaluator input threshold fuel (iteration + 1) (some fb)
        (history ++ [(candidate, fb)])

/-- Modelled from the spec: `run` starts the loop at iteration one with
no feedback and an empty history, allowing `max_iterations` iterations. -/
def run (optimizer : Nat → String → Option Feedback → String)
    (evaluator : Nat → String → String → EvalOutput) (input : String)
    (threshold : ℚ) (max_iterations : Nat) : RunResult :=
  evGo optimizer evaluator input threshold max_iterations 1 none []

/-- Stub candidates for the three-iteration scenario. -/
def demoCandidate : Nat → String
  | 1 => "candidate1"
  | 2 => "candidate2"
  | _ => "candidate3"

/-- Stub scores 0.5, 0.7, 0.95 for the three successive evaluator
calls. -/
def demoScore : Nat → ℚ
  | 1 => 1 / 2
  | 2 => 7 / 10
  | _ => 19 / 20

end workflows

theorem charsLtB_irrefl (l : List Char) : charsLtB l l = false := by
  induction l with
  | nil => rfl
  | cons a as ih => simp [charsLtB, ih]

theorem strLtB_irrefl (s : String) : strLtB s s = false := by
  simp [strLtB, charsLtB_irrefl]

theorem strLtB_ne (a b : String) (h : strLtB a b = true) : a ≠ b := by
  intro he
  subst he
  rw [strLtB_irrefl] at h
  exact Bool.false_ne_true h

theorem charsLtB_total (a b : List Char) (hab : charsLtB a b = false)
    (hne : a ≠ b) : charsLtB b a = true := by
  induction a generalizing b with
  | nil =>
    cases b with
    | nil => exact absurd rfl hne
    | cons y ys => simp [charsLtB] at hab
  | cons x xs ih =>
    cases b with
    | nil => simp [charsLtB]
    | cons y ys =>
      simp only [charsLtB] at hab ⊢
      by_cases hxy : x.toNat < y.toNat
      · simp [hxy] at hab
      · by_cases hyx : y.toNat < x.toNat
        · simp [hyx, hxy]
        · have hx : x = y := by
            apply Char.eq_of_val_eq
            apply UInt32.ext
            simp only [Char.toNat] at hxy hyx
            omega
          subst hx
          simp only [lt_self_iff_false, if_false] at hab ⊢
          apply ih _ hab
          intro h
          exact hne (by rw [h])

theorem strLtB_total (a b : String) (hab : strLtB a b = false)
    (hne : a ≠ b) : strLtB b a = true := by
  apply charsLtB_total _ _ hab
  intro h
  exact hne (String.ext h)

theorem charsLtB_trans (a b c : List Char) (hab : charsLtB a b = true)
    (hbc : charsLtB b c = true) : charsLtB a c = true := by
  induction a generalizing b c with
  | nil =>
    cases b with
    | nil => simp [charsLtB] at hab
    | cons y ys =>
      cases c with
      | nil => simp [charsLtB] at hbc
      | cons z zs => simp [charsLtB]
  | cons x xs ih =>
    cases b with
    | nil => simp [charsLtB] at hab
    | cons y ys =>
      cases c with
      | nil => simp [charsLtB] at hbc
      | cons z zs =>
        simp only [charsLtB] at hab hbc ⊢
        by_cases hxy : x.toNat < y.toNat
        · by_cases hyz : y.toNat < z.toNat
          · simp [show x.toNat < z.toNat by omega]
          · by_cases hzy : z.toNat < y.toNat
            · rw [if_neg hyz, if_pos hzy] at hbc
              exact absurd hbc (by simp)
            · simp [show x.toNat < z.toNat by omega]
        · by_cases hyx : y.toNat < x.toNat
          · rw [if_neg hxy, if_pos hyx] at hab
            exact absurd hab (by simp)
          · by_cases hyz : y.toNat < z.toNat
            · simp [show x.toNat < z.toNat by omega]
            · by_cases hzy : z.toNat < y.toNat
              · rw [if_neg hyz, if_pos hzy] at hbc
                exact absurd hbc (by simp)
              · rw [if_neg hxy, if_neg hyx] at hab
                rw [if_neg hyz, if_neg hzy] at hbc
                rw [if_neg (show ¬ x.toNat < z.toNat by omega),
                  if_neg (show ¬ z.toNat < x.toNat by omega)]
                exact ih ys zs hab hbc

theorem strLtB_trans (a b c : String) (hab : strLtB a b = true)
    (hbc : strLtB b c = true) : strLtB a c = true :=
  charsLtB_trans a.data b.data c.data hab hbc

theorem lookupA_insertA_self {α : Type} (l : List (String × α)) (key : String)
    (v : α) : lookupA (insertA l key v) key = some v := by
  induction l with
  | nil => simp [insertA, lookupA]
  | cons p tl ih =>
    obtain ⟨k, w⟩ := p
    by_cases h1 : strLtB key k
    · rw [insertA, if_pos h1]
      simp [lookupA]
    · by_cases h2 : key = k
      · subst h2
        rw [insertA, if_neg h1, if_pos rfl]
        simp [lookupA]
      · rw [insertA, if_neg h1, if_neg h2, lookupA,
          if_neg (fun h : k = key => h2 h.symm)]
        exact ih

theorem lookupA_insertA_ne {α : Type} (l : List (String × α)) (key key' : String)
    (v : α) (hne : key' ≠ key) :
    lookupA (insertA l key v) key' = lookupA l key' := by
  induction l with
  | nil =>
    rw [insertA]
    simp only [lookupA]
    rw [if_neg (Ne.symm hne)]
  | cons p tl ih =>
    obtain ⟨k, w⟩ := p
    by_cases h1 : strLtB key k
    · rw [insertA, if_pos h1, lookupA, if_neg (Ne.symm hne)]
    · by_cases h2 : key = k
      · subst h2
        rw [insertA, if_neg h1, if_pos rfl, lookupA, if_neg (Ne.symm hne),
          lookupA, if_neg (Ne.symm hne)]
      · rw [insertA, if_neg h1, if_neg h2]
        simp only [lookupA]
        by_cases h3 : k = key'
        · simp [h3]
        · simp [h3, ih]

theorem lookupA_eraseA_ne {α : Type} (l : List (String × α)) (key key' : String)
    (hne : key' ≠ key) :
    lookupA (eraseA l key) key' = lookupA l key' := by
  induction l with
  | nil => rfl
  | cons p tl ih =>
    obtain ⟨k, w⟩ := p
    by_cases h1 : k = key
    · subst h1
      rw [eraseA, if_pos rfl, lookupA, if_neg (Ne.symm hne)]
    · rw [eraseA, if_neg h1]
      simp only [lookupA]
      by_cases h2 : k = key'
      · simp [h2]
      · simp [h2, ih]

theorem lookupA_none_of_all_gt {α : Type} (l : List (String × α)) (key : String)
    (h : ∀ p ∈ l, strLtB key p.1 = true) : lookupA l key = none := by
  induction l with
  | nil => rfl
  | cons p tl ih =>
    obtain ⟨k, w⟩ := p
    have hk : strLtB key k = true := h (k, w) (List.mem_cons_self _ _)
    rw [lookupA, if_neg (Ne.symm (strLtB_ne key k hk))]
    exact ih (fun q hq => h q (List.mem_cons_of_mem _ hq))

theorem lookupA_eraseA_self {α : Type} (l : List (String × α)) (key : String)
    (hs : KeysSorted l) : lookupA (eraseA l key) key = none := by
  induction l with
  | nil => rfl
  | cons p tl ih =>
    obtain ⟨k, w⟩ := p
    obtain ⟨hall, htl⟩ := List.pairwise_cons.mp hs
    by_cases h1 : k = key
    · subst h1
      rw [eraseA, if_pos rfl]
      exact lookupA_none_of_all_gt tl k hall
    · rw [eraseA, if_neg h1, lookupA, if_neg h1]
      exact ih htl

theorem mem_insertA {α : Type} (l : List (String × α)) (key : String) (v : α)
    (p : String × α) (hp : p ∈ insertA l key v) : p = (key, v) ∨ p ∈ l := by
  induction l with
  | nil =>
    simp [insertA] at hp
    exact Or.inl hp
  | cons q tl ih =>
    obtain ⟨k, w⟩ := q
    by_cases h1 : strLtB key k
    · rw [insertA, if_pos h1] at hp
      rcases List.mem_cons.mp hp with h | h
      · exact Or.inl h
      · exact Or.inr h
    · by_cases h2 : key = k
      · rw [insertA, if_neg h1, if_pos h2] at hp
        rcases List.mem_cons.mp hp with h | h
        · exact Or.inl h
        · exact Or.inr (List.mem_cons_of_mem _ h)
      · rw [insertA, if_neg h1, if_neg h2] at hp
        rcases List.mem_cons.mp hp with h | h
        · exact Or.inr (by rw [h]; exact List.mem_cons_self _ _)
        · rcases ih h with h' | h'
          · exact Or.inl h'
          · exact Or.inr (List.mem_cons_of_mem _ h')

theorem insertA_sorted {α : Type} (l : List (String × α)) (key : String) (v : α)
    (hs : KeysSorted l) : KeysSorted (insertA l key v) := by
  induction l with
  | nil => simp [insertA]
  | cons p tl ih =>
    obtain ⟨k, w⟩ := p
    obtain ⟨hall, htl⟩ := List.pairwise_cons.mp hs
    by_cases h1 : strLtB key k
    · rw [insertA, if_pos h1]
      refine List.pairwise_cons.mpr ⟨?_, ?_⟩
      · intro q hq
        rcases List.mem_cons.mp hq with h | h
        · rw [h]
          exact h1
        · exact strLtB_trans key k q.1 h1 (hall q h)
      · exact List.pairwise_cons.mpr ⟨hall, htl⟩
    · by_cases h2 : key = k
      · subst h2
        rw [insertA, if_neg h1, if_pos rfl]
        exact List.pairwise_cons.mpr ⟨hall, htl⟩
      · rw [insertA, if_neg h1, if_neg h2]
        refine List.pairwise_cons.mpr ⟨?_, ih htl⟩
        intro q hq
        rcases mem_insertA tl key v q hq with h | h
        · rw [h]
          exact strLtB_total key k (by simpa using h1) h2
        · exact hall q h

namespace HTTPClient

/-- C8: when a url contains `"://"` (first occurrence at `proto_end`) and a
`'/'` later than the separator, `getBaseUrl` and `getPath` split the url
exactly, so their concatenation is the url; when no `'/'` follows the
host, `getBaseUrl` returns the url unchanged and `getPath` returns
`"/"`. -/
theorem getBaseUrl_append_getPath (url : List Char) (proto_end : Nat)
    (h1 : findSub url protoSep = some proto_end) :
    (∀ path_start, findCharFrom url '/' (proto_end + 3) = some path_start →
      getBaseUrl url ++ getPath url = url) ∧
    (findCharFrom url '/' (proto_end + 3) = none →
      getBaseUrl url = url ∧ getPath url = ['/']) := by
  constructor
  · intro path_start h2
    rw [getBaseUrl, getPath, h1]
    simp only [h2]
    exact List.take_append_drop path_start url
  · intro h2
    rw [getBaseUrl, getPath, h1]
    simp [h2]

/-- Witness for C8 on concrete urls: `"https://x.io/a"` splits into base
`"https://x.io"` and path `"/a"`, and `"https://x.io"` (no slash after the
host) keeps the whole url as base with path `"/"`. -/
theorem getBaseUrl_append_getPath_witness :
    getBaseUrl "https://x.io/a".data ++ getPath "https://x.io/a".data =
      "https://x.io/a".data ∧
    getBaseUrl "https://x.io".data = "https://x.io".data ∧
    getPath "https://x.io".data = ['/'] := by
  have ha :=
    (getBaseUrl_append_getPath "https://x.io/a".data 5 (by decide)).1 12
      (by decide)
  have hb :=
    (getBaseUrl_append_getPath "https://x.io".data 5 (by decide)).2
      (by decide)
  exact ⟨ha, hb.1, hb.2⟩

/-- C10: for every result of `post` and of either `get` overload, the
error flag is set exactly when the status code is `-1`: transport
failures and exceptions give `error = true` with `status_code = -1`,
and a completed exchange gives `error = false` with the server status
(a natural number, never `-1`). -/
theorem response_error_iff_status_neg_one (has_write_cb follow_redirects : Bool)
    (o : TryOutcome) (params : List (String × String)) (o1 o2 : GetOutcome) :
    ((post has_write_cb follow_redirects o).error = true ↔
      (post has_write_cb follow_redirects o).status_code = -1) ∧
    ((get o1).error = true ↔ (get o1).status_code = -1) ∧
    ((getWithParams params o2).error = true ↔
      (getWithParams params o2).status_code = -1) := by
  refine ⟨?_, ?_, ?_⟩
  · cases o with
    | thrown msg => simp [post]
    | sent res redirectRes =>
      cases hres : postResolve follow_redirects res redirectRes with
      | none => simp [post, hres]
      | some r =>
        simp only [post, hres]
        simp only [Bool.false_eq_true, false_iff]
        omega
  · cases o1 with
    | thrown msg => simp [get]
    | sent res =>
      cases res with
      | none => simp [get]
      | some r =>
        simp only [get, Bool.false_eq_true, false_iff]
        omega
  · cases o2 with
    | thrown msg => simp [getWithParams]
    | sent res =>
      cases res with
      | none => simp [getWithParams]
      | some r =>
        simp only [getWithParams, Bool.false_eq_true, false_iff]
        omega

end HTTPClient

namespace Utils

/-- C9: `Utils::changeKey` throws `std::runtime_error` and leaves the
object unchanged when `old_key` is absent; when `old_key` is present and
`new_key` differs, afterwards `new_key` holds the value previously at
`old_key`, `old_key` is gone, no exception is thrown, and every other key
keeps its previous value. -/
theorem changeKey_moves_value (object : JsonObject) (old_key new_key : String)
    (hs : KeysSorted object) :
    (lookupA object old_key = none →
      changeKey object old_key new_key =
        (some ("Key not found: " ++ old_key), object)) ∧
    (∀ v, lookupA object old_key = some v → new_key ≠ old_key →
      lookupA (changeKey object old_key new_key).2 new_key = some v ∧
      lookupA (changeKey object old_key new_key).2 old_key = none ∧
      (changeKey object old_key new_key).1 = none ∧
      ∀ k, k ≠ old_key → k ≠ new_key →
        lookupA (changeKey object old_key new_key).2 k = lookupA object k) := by
  constructor
  · intro h
    simp [changeKey, h]
  · intro v hv hne
    have h2 : (changeKey object old_key new_key).2 =
        eraseA (insertA object new_key v) old_key := by
      simp [changeKey, hv]
    refine ⟨?_, ?_, ?_, ?_⟩
    · rw [h2, lookupA_eraseA_ne _ _ _ hne, lookupA_insertA_self]
    · rw [h2]
      exact lookupA_eraseA_self _ _ (insertA_sorted _ _ _ hs)
    · simp [changeKey, hv]
    · intro k hko hkn
      rw [h2, lookupA_eraseA_ne _ _ _ hko, lookupA_insertA_ne _ _ _ _ hkn]

/-- Witness for C9 on a concrete object: moving `"alpha"` to `"gamma"` in
`{alpha: 1, beta: 2}` yields `{beta: 2, gamma: 1}` with no exception, and
the absent-key case throws with the object unchanged. -/
theorem changeKey_moves_value_witness :
    lookupA (changeKey [("alpha", JsonValue.num 1), ("beta", JsonValue.num 2)]
      "alpha" "gamma").2 "gamma" = some (JsonValue.num 1) ∧
    lookupA (changeKey [("alpha", JsonValue.num 1), ("beta", JsonValue.num 2)]
      "alpha" "gamma").2 "alpha" = none ∧
    (changeKey [("alpha", JsonValue.num 1), ("beta", JsonValue.num 2)]
      "alpha" "gamma").1 = none ∧
    lookupA (changeKey [("alpha", JsonValue.num 1), ("beta", JsonValue.num 2)]
      "alpha" "gamma").2 "beta" =
      lookupA [("alpha", JsonValue.num 1), ("beta", JsonValue.num 2)] "beta" ∧
    changeKey [("alpha", JsonValue.num 1)] "zeta" "gamma" =
      (some "Key not found: zeta", [("alpha", JsonValue.num 1)]) := by
  have h := (changeKey_moves_value
    [("alpha", JsonValue.num 1), ("beta", JsonValue.num 2)] "alpha" "gamma"
    (by decide)).2 (JsonValue.num 1) (by decide) (by decide)
  have habs := (changeKey_moves_value [("alpha", JsonValue.num 1)] "zeta"
    "gamma" (by decide)).1 (by decide)
  exact ⟨h.1, h.2.1, h.2.2.1, h.2.2.2 "beta" (by decide) (by decide), habs⟩

end Utils

/-- C3: registering a fresh name succeeds and `getTool` with that name
returns the registered capability; registering a name already present
fails with `DuplicateToolError` and leaves the registry contents
unchanged. -/
theorem registerTool_then_getTool (tools_ : ToolMap) (tool : Tool) :
    (getTool tools_ tool.name = none →
      (registerTool tools_ tool).1 = .ok () ∧
      getTool (registerTool tools_ tool).2 tool.name = some tool) ∧
    (∀ t, getTool tools_ tool.name = some t →
      (registerTool tools_ tool).1 = .error .duplicateTool ∧
      (registerTool tools_ tool).2 = tools_) := by
  constructor
  · intro h
    have h' : lookupA tools_ tool.name = none := h
    constructor
    · simp [registerTool, h']
    · simp [registerTool, getTool, h', lookupA_insertA_self]
  · intro t ht
    have h' : lookupA tools_ tool.name = some t := ht
    exact ⟨by simp [registerTool, h'], by simp [registerTool, h']⟩

/-- Witness for C3: registering `alpha` into the empty registry succeeds
and `getTool` returns it; registering the name `alpha` again fails with
`DuplicateToolError` and the registry is unchanged. -/
theorem registerTool_then_getTool_witness :
    (registerTool [] ⟨"alpha", "first"⟩).1 = .ok () ∧
    getTool (registerTool [] ⟨"alpha", "first"⟩).2 "alpha" =
      some ⟨"alpha", "first"⟩ ∧
    (registerTool (registerTool [] ⟨"alpha", "first"⟩).2
      ⟨"alpha", "second"⟩).1 = .error .duplicateTool ∧
    (registerTool (registerTool [] ⟨"alpha", "first"⟩).2
      ⟨"alpha", "second"⟩).2 = (registerTool [] ⟨"alpha", "first"⟩).2 := by
  have h1 := (registerTool_then_getTool [] ⟨"alpha", "first"⟩).1 (by decide)
  have h2 := (registerTool_then_getTool (registerTool [] ⟨"alpha", "first"⟩).2
    ⟨"alpha", "second"⟩).2 ⟨"alpha", "first"⟩ (by decide)
  exact ⟨h1.1, h1.2, h2.1, h2.2⟩

/-- C4 counterexample: registering `beta` then `alpha` yields the very
same `tools_` state as registering `alpha` then `beta` — the `std::map`
member cannot retain registration order — and `getTools` returns
`[alpha, beta]`, which differs from the registration order
`[beta, alpha]`. -/
theorem getTools_not_registration_order :
    (registerTool (registerTool [] ⟨"beta", "B"⟩).2 ⟨"alpha", "A"⟩).2 =
      (registerTool (registerTool [] ⟨"alpha", "A"⟩).2 ⟨"beta", "B"⟩).2 ∧
    getTools (registerTool (registerTool [] ⟨"beta", "B"⟩).2
      ⟨"alpha", "A"⟩).2 = [⟨"alpha", "A"⟩, ⟨"beta", "B"⟩] ∧
    ([⟨"alpha", "A"⟩, ⟨"beta", "B"⟩] : List Tool) ≠
      [⟨"beta", "B"⟩, ⟨"alpha", "A"⟩] := by
  refine ⟨by decide, by decide, by decide⟩

/-- C4 amended: for every well-formed registry the sequence returned by
`getTools` is strictly ascending by tool name (the `std::map` iteration
order), hence stable and deterministic across repeated calls on the same
unchanged registry; it is the registration order only when names happen
to be registered in ascending order. -/
theorem getTools_sorted_by_name (tools_ : ToolMap) (hwf : RegWF tools_) :
    List.Pairwise (fun a b => strLtB a.name b.name = true)
      (getTools tools_) := by
  obtain ⟨hs, hnames⟩ := hwf
  unfold getTools
  rw [List.pairwise_map]
  apply List.Pairwise.imp_of_mem _ hs
  intro a b ha hb hr
  rw [← hnames a ha, ← hnames b hb]
  exact hr

/-- Witness for the amended C4 on the two-tool registry built by
registering `beta` then `alpha`. -/
theorem getTools_sorted_by_name_witness :
    RegWF (registerTool (registerTool [] ⟨"beta", "B"⟩).2 ⟨"alpha", "A"⟩).2 ∧
    List.Pairwise (fun a b => strLtB a.name b.name = true)
      (getTools (registerTool (registerTool [] ⟨"beta", "B"⟩).2
        ⟨"alpha", "A"⟩).2) :=
  ⟨by decide, getTools_sorted_by_name _ (by decide)⟩

namespace media

/-- C7: whenever some entry of `uris_or_data` is neither a valid URI nor
decodable inline data, `buildMultimodalParts` rejects the input instead
of accepting or dropping the part. -/
theorem buildMultimodalParts_rejects (prompt : String)
    (uris_or_data : List String) (s : String) (hmem : s ∈ uris_or_data)
    (hu : isValidUri s = false) (hd : isDecodableInlineData s = false) :
    buildMultimodalParts prompt uris_or_data = .error .invalidMediaInput := by
  induction uris_or_data with
  | nil => cases hmem
  | cons a rest ih =>
    rcases List.mem_cons.mp hmem with h | h
    · subst h
      simp [buildMultimodalParts, classifyAll, classifyMediaInput, hu, hd]
    · cases hca : classifyMediaInput a with
      | none => simp [buildMultimodalParts, classifyAll, hca]
      | some p =>
        have ihr := ih h
        rw [buildMultimodalParts] at ihr ⊢
        cases hcr : classifyAll rest with
        | error e =>
          rw [hcr] at ihr
          simp at ihr
          simp [classifyAll, hca, hcr, ihr]
        | ok ps =>
          rw [hcr] at ihr
          simp at ihr

/-- Witness for C7: the string `"not base64!!"` is neither a valid URI nor
decodable inline data, and building a message from it fails. -/
theorem buildMultimodalParts_rejects_witness :
    ("not base64!!" ∈ ["not base64!!"]) ∧
    isValidUri "not base64!!" = false ∧
    isDecodableInlineData "not base64!!" = false ∧
    buildMultimodalParts "describe this" ["not base64!!"] =
      .error .invalidMediaInput := by
  refine ⟨by decide, by decide, by decide, ?_⟩
  exact buildMultimodalParts_rejects "describe this" ["not base64!!"]
    "not base64!!" (by decide) (by decide) (by decide)

end media

/-- C6: after a `chat` whose user message builds, the history grows by
exactly two messages on success (the user message then the assistant
message) and by exactly one (the user message only) when the model round
trip fails hard; messages appended before the failure remain. -/
theorem chat_history_growth (roundTrip : List Message → Except AgentError String)
    (history : List Message) (user_message : String)
    (uris_or_data : List String) (m : Message)
    (hm : media.buildMultimodalParts user_message uris_or_data = .ok m) :
    (∀ t, roundTrip (history ++ [m]) = .ok t →
      (chat roundTrip history user_message uris_or_data).2 =
        history ++ [m, assistantText t] ∧
      (chat roundTrip history user_message uris_or_data).2.length =
        history.length + 2) ∧
    (∀ e, roundTrip (history ++ [m]) = .error e →
      (chat roundTrip history user_message uris_or_data).1 = .error e ∧
      (chat roundTrip history user_message uris_or_data).2 =
        history ++ [m] ∧
      (chat roundTrip history user_message uris_or_data).2.length =
        history.length + 1) := by
  constructor
  · intro t ht
    simp [chat, hm, ht]
  · intro e he
    simp [chat, hm, he]

/-- Witness for C6: a succeeding round trip appends user plus assistant,
and a transport failure leaves exactly the user message appended. -/
theorem chat_history_growth_witness :
    (chat (fun _ => .ok "pong") [] "ping" []).2 =
      [] ++ [⟨.user, [.text "ping"], [], none⟩, assistantText "pong"] ∧
    (chat (fun _ => .error .transportError) [] "ping" []).2 =
      [] ++ [(⟨.user, [.text "ping"], [], none⟩ : Message)] ∧
    (chat (fun _ => .error .transportError) [] "ping" []).1 =
      .error .transportError := by
  have hok := (chat_history_growth (fun _ => .ok "pong") [] "ping" []
    ⟨.user, [.text "ping"], [], none⟩ rfl).1 "pong" rfl
  have herr := (chat_history_growth (fun _ => .error .transportError) []
    "ping" [] ⟨.user, [.text "ping"], [], none⟩ rfl).2 .transportError rfl
  exact ⟨hok.1, herr.2.1, herr.1⟩

theorem chatToolsGo_exceeds (client : Nat → List Message → LLMResp)
    (exec : String → String → ToolResult) (turn_cap : Nat)
    (h : ∀ i msgs, i < turn_cap →
      ∃ calls, calls ≠ [] ∧ client i msgs = .toolCalls calls) :
    ∀ fuel round msgs, round + fuel ≤ turn_cap →
      chatToolsGo client exec fuel round msgs = .error .loopExceeded := by
  intro fuel
  induction fuel with
  | zero => intro round msgs _; rfl
  | succ n ih =>
    intro round msgs hle
    obtain ⟨calls, hne, hcl⟩ := h round msgs (by omega)
    rw [chatToolsGo, hcl]
    exact ih (round + 1) (msgs ++ toolRoundMessages exec calls) (by omega)

/-- C1: against a model client that on every round within the cap
requests at least one tool call and never returns a final answer,
`chatWithTools` terminates (the loop consumes one unit of fuel per round)
and fails with `LoopExceededError` at the configured turn cap, neither
looping forever nor silently truncating. -/
theorem chatWithTools_loopExceeded (client : Nat → List Message → LLMResp)
    (exec : String → String → ToolResult) (turn_cap : Nat)
    (history : List Message) (user_message : String)
    (uris_or_data : List String) (m : Message)
    (hm : media.buildMultimodalParts user_message uris_or_data = .ok m)
    (h : ∀ i msgs, i < turn_cap →
      ∃ calls, calls ≠ [] ∧ client i msgs = .toolCalls calls) :
    chatWithTools client exec turn_cap history user_message uris_or_data =
      .error .loopExceeded := by
  rw [chatWithTools, hm]
  exact chatToolsGo_exceeds client exec turn_cap h turn_cap 0
    (history ++ [m]) (by omega)

/-- Witness for C1: a stub client that always requests the tool `echo`
with params `x:1` drives `chatWithTools` with turn cap `4` into
`LoopExceededError`. -/
theorem chatWithTools_loopExceeded_witness :
    chatWithTools (fun _ _ => .toolCalls [⟨"echo", "call1", "x:1"⟩])
      (fun _ _ => ⟨true, "1"⟩) 4 [] "solve it" [] = .error .loopExceeded :=
  chatWithTools_loopExceeded _ _ 4 [] "solve it" []
    ⟨.user, [.text "solve it"], [], none⟩ rfl
    (fun _ _ _ => ⟨[⟨"echo", "call1", "x:1"⟩], by decide, rfl⟩)

namespace workflows

theorem evGo_succ (optimizer : Nat → String → Option Feedback → String)
    (evaluator : Nat → String → String → EvalOutput) (input : String)
    (threshold : ℚ) (fuel iteration : Nat) (lastFeedback : Option Feedback)
    (history : List (String × Feedback)) :
    evGo optimizer evaluator input threshold (fuel + 1) iteration
      lastFeedback history =
      (let candidate := optimizer iteration input lastFeedback
       let fb := parseFeedback (evaluator iteration input candidate)
       if fb.accept = true ∨ threshold ≤ fb.score then
         { finalOutput := candidate, iterations := iteration,
           accepted := true, history := history ++ [(candidate, fb)] }
       else if fuel = 0 then
         { finalOutput := candidate, iterations := iteration,
           accepted := false, history := history ++ [(candidate, fb)] }
       else
         evGo optimizer evaluator input threshold fuel (iteration + 1)
           (some fb) (history ++ [(candidate, fb)])) := rfl

/-- C2: with acceptance threshold 0.8 and max iterations 3, an evaluator
scoring the successive candidates 0.5, 0.7 and 0.95 (accept always
false) drives `run` through exactly three generate plus evaluate
iterations — the history records all three — returning accepted with
`iterations = 3` and `finalOutput` the third candidate produced by the
optimizer. -/
theorem run_accepts_on_third_iteration :
    run (fun i _ _ => demoCandidate i)
      (fun i _ _ => .parsed ⟨demoScore i, false, "needs work"⟩)
      "task" (8 / 10) 3 =
    ⟨"candidate3", 3, true,
      [("candidate1", ⟨1 / 2, false, "needs work"⟩),
       ("candidate2", ⟨7 / 10, false, "needs work"⟩),
       ("candidate3", ⟨19 / 20, false, "needs work"⟩)]⟩ := by
  have h1 : ¬((false : Bool) = true ∨ (8 : ℚ) / 10 ≤ demoScore 1) := by
    rw [show demoScore 1 = 1 / 2 from rfl]
    simp only [Bool.false_eq_true, false_or]
    norm_num
  have h2 : ¬((false : Bool) = true ∨ (8 : ℚ) / 10 ≤ demoScore 2) := by
    rw [show demoScore 2 = 7 / 10 from rfl]
    simp only [Bool.false_eq_true, false_or]
    norm_num
  have h3 : ((false : Bool) = true ∨ (8 : ℚ) / 10 ≤ demoScore 3) := by
    right
    rw [show demoScore 3 = 19 / 20 from rfl]
    norm_num
  show evGo _ _ "task" (8 / 10) (2 + 1) 1 none [] = _
  rw [evGo_succ]
  simp only [parseFeedback]
  rw [if_neg h1, if_neg (show ¬(2 : Nat) = 0 by norm_num)]
  show evGo _ _ "task" (8 / 10) (1 + 1) 2 _ _ = _
  rw [evGo_succ]
  simp only [parseFeedback]
  rw [if_neg h2, if_neg (show ¬(1 : Nat) = 0 by norm_num)]
  show evGo _ _ "task" (8 / 10) (0 + 1) 3 _ _ = _
  rw [evGo_succ]
  simp only [parseFeedback]
  rw [if_pos h3]
  rfl

/-- C5: on any iteration whose evaluator output cannot be parsed, the
loop does not abort: the feedback recorded in the history for that
iteration is score `0`, accept `false`, and the loop proceeds to the next
iteration, or terminates not-accepted when the iteration cap is
exhausted. -/
theorem evGo_recovers_malformed_feedback
    (optimizer : Nat → String → Option Feedback → String)
    (evaluator : Nat → String → String → EvalOutput) (input : String)
    (threshold : ℚ) (fuel iteration : Nat) (lastFeedback : Option Feedback)
    (history : List (String × Feedback)) (hth : 0 < threshold)
    (hm : evaluator iteration input (optimizer iteration input lastFeedback) =
      .malformed) :
    evGo optimizer evaluator input threshold (fuel + 1) iteration
      lastFeedback history =
      (if fuel = 0 then
        ⟨optimizer iteration input lastFeedback, iteration, false,
          history ++ [(optimizer iteration input lastFeedback,
            ⟨0, false, ""⟩)]⟩
      else
        evGo optimizer evaluator input threshold fuel (iteration + 1)
          (some ⟨0, false, ""⟩)
          (history ++ [(optimizer iteration input lastFeedback,
            ⟨0, false, ""⟩)])) := by
  rw [evGo_succ]
  simp only [hm, parseFeedback]
  rw [if_neg ?hcond]
  case hcond =>
    intro hor
    rcases hor with h | h
    · exact Bool.false_ne_true h
    · exact absurd h (not_le.mpr hth)

/-- Witness for C5: an always-malformed evaluator with threshold `1` and
two remaining iterations records the zero-score feedback and continues
into the next iteration. -/
theorem evGo_recovers_malformed_feedback_witness :
    (0 : ℚ) < 1 ∧
    evGo (fun _ _ _ => "c") (fun _ _ _ => .malformed) "input" 1 2 1 none [] =
      evGo (fun _ _ _ => "c") (fun _ _ _ => .malformed) "input" 1 1 2
        (some ⟨0, false, ""⟩) [("c", ⟨0, false, ""⟩)] := by
  refine ⟨one_pos, ?_⟩
  have h := evGo_recovers_malformed_feedback (fun _ _ _ => "c")
    (fun _ _ _ => .malformed) "input" 1 1 1 none [] one_pos rfl
  show evGo (fun _ _ _ => "c") (fun _ _ _ => .malformed) "input" 1 (1 + 1) 1
    none [] = _
  rw [h, if_neg (show ¬(1 : Nat) = 0 by norm_num)]
  rfl

end workflows

end agents
